import Mathlib

/-!
Shallow embedding of the `webview-bundle` core (Rust crate `wvb`) and proofs
about it: the bundle container codec (header / index / data sections), the
bundle serving protocol (Range handling, 404/405 gates), the manifest of the
two-tier bundle source, and the updater's verification pipeline.

Bytes are modelled as `List Nat` (each element a byte value), machine
integers as `Nat` with explicit `% 2^32` where the Rust code truncates
(`as u32`); fallible Rust code returning `crate::Result` is modelled with
`Except Error`; a Rust panic (out-of-bounds slice) is modelled as `none` in
an `Option` layer.  External crates the code calls through a fixed interface
(lz4_flex, bincode, http-range) are modelled as explicit function parameters,
mirroring how the source is parametric over those libraries; repository
modules that sit outside the extracted sources (checksum, version, uri,
integrity policy) are modelled from the specification text, each marked in
its doc comment.
-/

namespace WvbSpec

/-- Byte strings: each element is one byte value (0..255). -/
abbrev Bytes := List Nat

/-- Big-endian 4-byte serialization of a 32-bit value (`u32::to_be_bytes`). -/
def u32be (n : Nat) : Bytes :=
  [n / 2 ^ 24 % 256, n / 2 ^ 16 % 256, n / 2 ^ 8 % 256, n % 256]

/-- Big-endian deserialization of 4 bytes (`u32::from_be_bytes`). -/
def be32 (b0 b1 b2 b3 : Nat) : Nat :=
  b0 * 2 ^ 24 + b1 * 2 ^ 16 + b2 * 2 ^ 8 + b3

/-- Seek to `off` and `read_exact` `len` bytes; `none` models the I/O error
when the underlying buffer is too short. -/
def readAt (bs : Bytes) (off len : Nat) : Option Bytes :=
  if off + len ≤ bs.length then some ((bs.drop off).take len) else none

/-- ASCII byte view of a string (all strings produced by the embedded code
are ASCII, so `Char.toNat` per character coincides with UTF-8). -/
def strBytes (s : String) : Bytes := s.data.map Char.toNat

/-! ## Checksum primitive

Modelled from the spec: the module `crate::checksum` is not among the
extracted sources; §4.1 fixes it to seeded xxHash-32 with big-endian 4-byte
serialization, and the test vectors in `header.rs` / `index.rs` pin the
exact values. -/

def xxPrime1 : Nat := 2654435761
def xxPrime2 : Nat := 2246822519
def xxPrime3 : Nat := 3266489917
def xxPrime4 : Nat := 668265263
def xxPrime5 : Nat := 374761393

/-- Rotate a 32-bit value left by `r` (for `0 < r < 32`). -/
def rotl32 (x r : Nat) : Nat := x % 2 ^ (32 - r) * 2 ^ r + x / 2 ^ (32 - r)

/-- Wrapping 32-bit subtraction. -/
def wsub32 (a b : Nat) : Nat := (a + 2 ^ 32 - b % 2 ^ 32) % 2 ^ 32

/-- Little-endian 32-bit word from four bytes. -/
def le32 (a b c d : Nat) : Nat := a + b * 2 ^ 8 + c * 2 ^ 16 + d * 2 ^ 24

/-- One xxHash-32 accumulator round. -/
def xxRound (acc lane : Nat) : Nat :=
  rotl32 ((acc + lane * xxPrime2) % 2 ^ 32) 13 * xxPrime1 % 2 ^ 32

/-- Consume full 16-byte stripes, updating the four accumulators. -/
def xxStripes : Nat → Nat → Nat → Nat → Bytes → Nat × Nat × Nat × Nat × Bytes
  | v1, v2, v3, v4,
    a0 :: a1 :: a2 :: a3 :: b0 :: b1 :: b2 :: b3 ::
    c0 :: c1 :: c2 :: c3 :: d0 :: d1 :: d2 :: d3 :: rest =>
      xxStripes (xxRound v1 (le32 a0 a1 a2 a3)) (xxRound v2 (le32 b0 b1 b2 b3))
        (xxRound v3 (le32 c0 c1 c2 c3)) (xxRound v4 (le32 d0 d1 d2 d3)) rest
  | v1, v2, v3, v4, rest => (v1, v2, v3, v4, rest)

/-- Consume remaining full 4-byte words. -/
def xxWords : Nat → Bytes → Nat × Bytes
  | h, a :: b :: c :: d :: rest =>
      xxWords (rotl32 ((h + le32 a b c d * xxPrime3) % 2 ^ 32) 17 * xxPrime4 % 2 ^ 32) rest
  | h, rest => (h, rest)

/-- Consume trailing single bytes. -/
def xxTail : Nat → Bytes → Nat
  | h, [] => h
  | h, b :: rest => xxTail (rotl32 ((h + b * xxPrime5) % 2 ^ 32) 11 * xxPrime1 % 2 ^ 32) rest

/-- Final avalanche mixing. -/
def xxAvalanche (h0 : Nat) : Nat :=
  let h1 := (h0 ^^^ h0 / 2 ^ 15) * xxPrime2 % 2 ^ 32
  let h2 := (h1 ^^^ h1 / 2 ^ 13) * xxPrime3 % 2 ^ 32
  h2 ^^^ h2 / 2 ^ 16

/-- Seeded xxHash-32 over a byte string (`checksum::make_checksum`). -/
def make_checksum (seed : Nat) (bytes : Bytes) : Nat :=
  let n := bytes.length
  let (acc, rest) :=
    if n ≥ 16 then
      let (v1, v2, v3, v4, rest) :=
        xxStripes ((seed + xxPrime1 + xxPrime2) % 2 ^ 32) ((seed + xxPrime2) % 2 ^ 32)
          (seed % 2 ^ 32) (wsub32 seed xxPrime1) bytes
      ((rotl32 v1 1 + rotl32 v2 7 + rotl32 v3 12 + rotl32 v4 18) % 2 ^ 32, rest)
    else ((seed + xxPrime5) % 2 ^ 32, bytes)
  xxAvalanche (xxTail (xxWords ((acc + n) % 2 ^ 32) rest).1 (xxWords ((acc + n) % 2 ^ 32) rest).2)

/-- Big-endian serialization of a checksum (`checksum::write_checksum`). -/
def write_checksum (c : Nat) : Bytes := u32be c

/-- Length of a serialized checksum (`checksum::CHECKSUM_LEN`). -/
def CHECKSUM_LEN : Nat := 4

/-! ## Errors (`crate::Error`, §6/§7 error identities) -/

inductive Error where
  | invalidMagicNum
  | invalidVersion
  | invalidHeaderChecksum
  | invalidIndexChecksum
  | decode
  | decompress
  | ioError
  | bundleNotFound
  | bundleEntryNotExists (bundleName version : String)
  | bundleCannotBeRemoved (bundleName version : String)
  | integrityVerifyFailed
  | integrityRequired
  | signatureNotExists
  | signatureVerifyFailed
  deriving DecidableEq, Repr

/-! ## Header (`header.rs`)

Modelled from the source except `Version`, whose module is not among the
extracted sources; the spec fixes the single variant `V1` with byte `0x01`. -/

inductive Version where
  | v1
  deriving DecidableEq, Repr

/-- Byte serialization of a version (`Version::bytes`); spec §3: `V1 = 0x01`. -/
def Version.bytes : Version → Bytes
  | .v1 => [1]

structure Header where
  version : Version
  index_size : Nat
  deriving DecidableEq, Repr

/-- The 8-byte magic (`Header::MAGIC`). -/
def MAGIC : Bytes := [0xf0, 0x9f, 0x8c, 0x90, 0xf0, 0x9f, 0x8e, 0x81]

/-- Data-section start offset (`Header::index_end_offset`). -/
def Header.index_end_offset (h : Header) : Nat := 17 + h.index_size + CHECKSUM_LEN

/-- `Writer<Header> for HeaderWriter`: magic, version byte, big-endian index
size, then the checksum (with the writer's seed) over the 13 preceding
bytes.  Returns the emitted bytes; the Rust writer returns their count. -/
def headerWriterWrite (seed : Nat) (h : Header) : Bytes :=
  let body := MAGIC ++ h.version.bytes ++ u32be (h.index_size % 2 ^ 32)
  body ++ write_checksum (make_checksum seed body)

structure HeaderReaderOptions where
  checksum_seed : Nat := 0
  verify_checksum : Bool := false
  deriving DecidableEq, Repr

/-- Value of 4 read bytes (`u32::from_be_bytes` after `read_exact`). -/
def be32Of (bs : Bytes) : Nat :=
  match bs with
  | [b0, b1, b2, b3] => be32 b0 b1 b2 b3
  | _ => 0

/-- `Reader<Header> for HeaderReader`: parse magic, version, index size and
checksum at their fixed offsets, optionally verifying the checksum over the
13-byte prefix. -/
def headerReaderRead (opts : HeaderReaderOptions) (bs : Bytes) : Except Error Header :=
  match readAt bs 0 8 with
  | none => .error .ioError
  | some magic =>
    if magic ≠ MAGIC then .error .invalidMagicNum
    else
      match readAt bs 8 1 with
      | none => .error .ioError
      | some verBytes =>
        if verBytes ≠ Version.v1.bytes then .error .invalidVersion
        else
          match readAt bs 9 4 with
          | none => .error .ioError
          | some szBytes =>
            match readAt bs 13 4 with
            | none => .error .ioError
            | some ckBytes =>
              if opts.verify_checksum then
                match readAt bs 0 13 with
                | none => .error .ioError
                | some total =>
                  if be32Of ckBytes ≠ make_checksum opts.checksum_seed total then
                    .error .invalidHeaderChecksum
                  else .ok { version := .v1, index_size := be32Of szBytes }
              else .ok { version := .v1, index_size := be32Of szBytes }

/-! ## Association-list model of `HashMap`

The Rust code stores paths, manifest entries and versions in `HashMap`s.
A `HashMap` is modelled as an association list whose order is the map's
(arbitrary but fixed) iteration order; keys are unique. -/

/-- `HashMap::get`. -/
def alookup {α : Type} : List (String × α) → String → Option α
  | [], _ => none
  | (k, v) :: rest, key => if k = key then some v else alookup rest key

/-- `HashMap::contains_key`. -/
def acontains {α : Type} (m : List (String × α)) (key : String) : Bool :=
  (alookup m key).isSome

/-- `HashMap::insert`: replace in place when the key is present, append
otherwise. -/
def ainsert {α : Type} : List (String × α) → String → α → List (String × α)
  | [], key, v => [(key, v)]
  | (k, w) :: rest, key, v =>
      if k = key then (k, v) :: rest else (k, w) :: ainsert rest key v

/-- `HashMap::remove`. -/
def aremove {α : Type} : List (String × α) → String → List (String × α)
  | [], _ => []
  | (k, w) :: rest, key => if k = key then rest else (k, w) :: aremove rest key

/-- `Entry::and_modify`: apply `f` to the value at `key` when present. -/
def amodify {α : Type} : List (String × α) → String → (α → α) → List (String × α)
  | [], _, _ => []
  | (k, w) :: rest, key, f =>
      if k = key then (k, f w) :: rest else (k, w) :: amodify rest key f

/-- `Entry::and_modify(f).or_insert_with(|| dflt)`. -/
def amodifyOrInsert {α : Type} (m : List (String × α)) (key : String) (f : α → α) (dflt : α) :
    List (String × α) :=
  if acontains m key then amodify m key f else m ++ [(key, dflt)]

/-! ## Manifest (`source/manifest.rs`)

The constant `manifestVersion` tag (always `1`) is serialization detail and
is omitted from the state. -/

structure BundleManifestMetadata where
  etag : Option String := none
  integrity : Option String := none
  signature : Option String := none
  last_modified : Option String := none
  deriving DecidableEq, Repr

structure BundleManifestEntry where
  versions : List (String × BundleManifestMetadata)
  current_version : String
  deriving DecidableEq, Repr

structure BundleManifestData where
  entries : List (String × BundleManifestEntry) := []
  deriving DecidableEq, Repr

/-- `BundleManifest::contains_entry`. -/
def contains_entry (d : BundleManifestData) (b v : String) : Bool :=
  match alookup d.entries b with
  | some entry => acontains entry.versions v
  | none => false

/-- `BundleManifest::update_current_version`: require `(b, v)` to exist,
then `and_modify` the entry's current version.  Returns the typed result
together with the post state (the Rust method mutates `self`). -/
def update_current_version (d : BundleManifestData) (b v : String) :
    Except Error Unit × BundleManifestData :=
  if ¬ contains_entry d b v then (.error (.bundleEntryNotExists b v), d)
  else
    (.ok (),
     { d with entries := amodify d.entries b (fun entry => { entry with current_version := v }) })

/-- `BundleManifest::insert_entry`: `and_modify` (skip when the version is
already present) `or_insert_with` a fresh entry whose current version is the
inserted one.  Returns whether an insertion happened, with the post state. -/
def insert_entry (d : BundleManifestData) (b v : String) (m : BundleManifestMetadata) :
    Bool × BundleManifestData :=
  let inserted :=
    match alookup d.entries b with
    | some entry => !acontains entry.versions v
    | none => true
  let entries :=
    amodifyOrInsert d.entries b
      (fun entry =>
        if acontains entry.versions v then entry
        else { entry with versions := ainsert entry.versions v m })
      { versions := [(v, m)], current_version := v }
  (inserted, { d with entries := entries })

/-- `BundleManifest::remove_entry`: refuse to remove the current version,
otherwise remove and report whether the version was present. -/
def remove_entry (d : BundleManifestData) (b v : String) :
    Except Error Bool × BundleManifestData :=
  match alookup d.entries b with
  | some entry =>
      if entry.current_version = v then (.error (.bundleCannotBeRemoved b v), d)
      else
        (.ok (acontains entry.versions v),
         { d with entries := amodify d.entries b (fun e => { e with versions := aremove e.versions v }) })
  | none => (.ok false, d)

/-- Spec §3 manifest invariant: each bundle's `currentVersion` is a key of
its `versions` map. -/
def ManifestWf (d : BundleManifestData) : Prop :=
  ∀ b entry, alookup d.entries b = some entry →
    acontains entry.versions entry.current_version = true

/-! ## Index and bundle values (`index.rs`, `bundle.rs`, `builder.rs`) -/

structure IndexEntry where
  offset : Nat
  len : Nat
  content_type : String
  content_length : Nat
  headers : List (String × String) := []
  deriving DecidableEq, Repr

/-- `Index`: path-keyed map of entries (`IndexEntryMap`). -/
abbrev IndexMap := List (String × IndexEntry)

structure BundleDescriptor where
  header : Header
  index : IndexMap
  deriving DecidableEq, Repr

structure Bundle where
  descriptor : BundleDescriptor
  data : Bytes
  deriving DecidableEq, Repr

/-- Interface of the bincode index codec (`encode_to_vec` /
`decode_from_slice` with the big-endian standard config).  The theorems take
the codec's round-trip behaviour at the relevant index as a hypothesis,
mirroring how the source is parametric over the bincode crate. -/
structure IndexCodec where
  enc : IndexMap → Bytes
  dec : Bytes → Except Error IndexMap

/-- Interface of the lz4_flex codec (`compress_prepend_size` /
`decompress_size_prepended`), an external crate the source calls through
exactly these two functions. -/
structure Lz4 where
  comp : Bytes → Bytes
  decomp : Bytes → Except Error Bytes

structure IndexReaderOptions where
  checksum_seed : Nat := 0
  verify_checksum : Bool := false
  deriving DecidableEq, Repr

/-- `Writer<Index> for IndexWriter`: encoded mapping followed by its
checksum. -/
def indexWriterWrite (ic : IndexCodec) (seed : Nat) (index : IndexMap) : Bytes :=
  let bytes := ic.enc index
  bytes ++ write_checksum (make_checksum seed bytes)

/-- `Reader<Index> for IndexReader`: read `index_size` bytes at offset 17,
decode, read the trailing checksum, optionally verify. -/
def indexReaderRead (ic : IndexCodec) (opts : IndexReaderOptions) (header : Header) (bs : Bytes) :
    Except Error IndexMap :=
  match readAt bs 17 header.index_size with
  | none => .error .ioError
  | some buf =>
    match ic.dec buf with
    | .error e => .error e
    | .ok index =>
      match readAt bs (17 + header.index_size) 4 with
      | none => .error .ioError
      | some ckBytes =>
        if opts.verify_checksum then
          if be32Of ckBytes ≠ make_checksum opts.checksum_seed buf then .error .invalidIndexChecksum
          else .ok index
        else .ok index

/-- `read_data`: seek to the data-section start and read to the end. -/
def bundleReadData (header : Header) (bs : Bytes) : Bytes :=
  bs.drop header.index_end_offset

/-- `Reader<BundleDescriptor> for BundleReader` (header and index readers
run with their default options, as in the source). -/
def bundleDescriptorRead (ic : IndexCodec) (bs : Bytes) : Except Error BundleDescriptor :=
  match headerReaderRead {} bs with
  | .error e => .error e
  | .ok header =>
    match indexReaderRead ic {} header bs with
    | .error e => .error e
    | .ok index => .ok ⟨header, index⟩

/-- `Reader<Bundle> for BundleReader`. -/
def bundleReaderRead (ic : IndexCodec) (bs : Bytes) : Except Error Bundle :=
  match headerReaderRead {} bs with
  | .error e => .error e
  | .ok header =>
    match indexReaderRead ic {} header bs with
    | .error e => .error e
    | .ok index => .ok ⟨⟨header, index⟩, bundleReadData header bs⟩

/-- `Writer<Bundle> for BundleWriter` (header and index writers run with
their default seed, as in the source). -/
def bundleWriterWrite (ic : IndexCodec) (b : Bundle) : Bytes :=
  headerWriterWrite 0 b.descriptor.header ++ indexWriterWrite ic 0 b.descriptor.index ++ b.data

/-- `BundleDataReader::read_entry_data`: read `entry.len` bytes at
`base + entry.offset` and decompress. -/
def readEntryData (lz : Lz4) (bs : Bytes) (base : Nat) (entry : IndexEntry) :
    Except Error Bytes :=
  match readAt bs (base + entry.offset) entry.len with
  | none => .error .ioError
  | some buf => lz.decomp buf

/-- `Bundle::get_data`: look up the path, then read from the in-memory data
section (base offset 0). -/
def bundleGetData (lz : Lz4) (b : Bundle) (path : String) : Except Error (Option Bytes) :=
  match alookup b.descriptor.index path with
  | none => .ok none
  | some entry => (readEntryData lz b.data 0 entry).map some

/-- `BundleDescriptor::async_get_data`: look up the path, then read from the
full bundle file (base offset `index_end_offset`). -/
def descriptorGetData (lz : Lz4) (d : BundleDescriptor) (file : Bytes) (path : String) :
    Except Error (Option Bytes) :=
  match alookup d.index path with
  | none => .ok none
  | some entry => (readEntryData lz file d.header.index_end_offset entry).map some

/-! ## Builder (`builder.rs`) -/

structure BundleEntry where
  compressed : Bytes
  content_type : String
  content_length : Nat
  headers : Option (List (String × String)) := none
  deriving DecidableEq, Repr

/-- `BundleEntry::new`: compress at insertion, record the original length. -/
def BundleEntry.new (lz : Lz4) (data : Bytes) (ct : String)
    (headers : Option (List (String × String))) : BundleEntry :=
  ⟨lz.comp data, ct, data.length, headers⟩

/-- `BundleBuilder::build_index`: walk the entry map in iteration order,
assigning sequential offsets separated by the per-entry checksum width. -/
def buildIndexAux : List (String × BundleEntry) → Nat → IndexMap
  | [], _ => []
  | (p, e) :: rest, offset =>
      (p, { offset := offset, len := e.compressed.length, content_type := e.content_type,
            content_length := e.content_length, headers := e.headers.getD [] })
        :: buildIndexAux rest (offset + e.compressed.length + CHECKSUM_LEN)

def build_index (entries : List (String × BundleEntry)) : IndexMap :=
  buildIndexAux entries 0

/-- `BundleBuilder::build_data`: concatenate each compressed payload with
its checksum, in the same iteration order. -/
def build_data (seed : Nat) (entries : List (String × BundleEntry)) : Bytes :=
  (entries.map (fun e => e.2.compressed ++ (make_checksum seed e.2.compressed |> u32be))).flatten

/-- `BundleBuilder::build_header`: index size is the encoded mapping's byte
length (the writer's count minus the checksum), truncated `as u32`. -/
def build_header (ic : IndexCodec) (index : IndexMap) : Header :=
  ⟨.v1, (ic.enc index).length % 2 ^ 32⟩

/-- `BundleBuilder::build` (builder version defaults to `V1`). -/
def bundleBuild (ic : IndexCodec) (seed : Nat) (entries : List (String × BundleEntry)) : Bundle :=
  ⟨⟨build_header ic (build_index entries), build_index entries⟩, build_data seed entries⟩

/-- A builder populated from a mapping `M` of paths to
`(bytes, content-type, headers)` triples: each record is inserted through
`BundleEntry::new`.  The list order stands for the entry map's (arbitrary
but fixed) iteration order. -/
def builderOf (lz : Lz4) (M : List (String × Bytes × String × Option (List (String × String)))) :
    List (String × BundleEntry) :=
  M.map (fun r => (r.1, BundleEntry.new lz r.2.1 r.2.2.1 r.2.2.2))

/-! ## Source (`source/source.rs`) -/

inductive BundleSourceKind where
  | builtin
  | remote
  deriving DecidableEq, Repr

structure BundleSourceVersion where
  kind : BundleSourceKind
  version : String
  deriving DecidableEq, Repr

/-- Pure state of a `BundleSource`: the two manifests and the file tree
(keyed by file path). -/
structure SourceState where
  builtin_dir : String
  remote_dir : String
  builtinManifest : BundleManifestData
  remoteManifest : BundleManifestData
  files : List (String × Bytes)

/-- `BundleManifest::load_current_version`. -/
def manifestCurrentVersion (d : BundleManifestData) (b : String) : Option String :=
  (alookup d.entries b).map (·.current_version)

/-- `BundleSource::load_version`: remote current version first, builtin as
fallback. -/
def load_version (st : SourceState) (name : String) : Option BundleSourceVersion :=
  match manifestCurrentVersion st.remoteManifest name with
  | some v => some ⟨.remote, v⟩
  | none => (manifestCurrentVersion st.builtinManifest name).map (⟨.builtin, ·⟩)

/-- `BundleSource::get_filepath`: `<dir>/<name>/<name>_<version>.wvb`. -/
def get_filepath (base_dir name version : String) : String :=
  base_dir ++ "/" ++ name ++ "/" ++ name ++ "_" ++ version ++ ".wvb"

/-- `BundleSource::filepath`: resolve a version or fail with
`BundleNotFound`. -/
def sourceFilepath (st : SourceState) (name : String) : Except Error String :=
  match load_version st name with
  | none => .error .bundleNotFound
  | some v =>
      .ok (get_filepath (match v.kind with
        | .builtin => st.builtin_dir
        | .remote => st.remote_dir) name v.version)

/-- `BundleSource::reader`: open the resolved file; a missing file maps to
`BundleNotFound`. -/
def sourceReader (st : SourceState) (name : String) : Except Error Bytes :=
  match sourceFilepath st name with
  | .error e => .error e
  | .ok fp =>
    match alookup st.files fp with
    | none => .error .bundleNotFound
    | some bytes => .ok bytes

/-- `BundleSource::load_descriptor` / `fetch_descriptor`: the per-name
single-flight cache is concurrency machinery; each successful call returns
the result of reading the descriptor from the resolved file. -/
def sourceLoadDescriptor (ic : IndexCodec) (st : SourceState) (name : String) :
    Except Error BundleDescriptor :=
  match sourceReader st name with
  | .error e => .error e
  | .ok bytes => bundleDescriptorRead ic bytes

/-- `BundleSource::write_remote_bundle`: write the bundle file under the
remote root, then insert the manifest entry. -/
def write_remote_bundle (ic : IndexCodec) (st : SourceState) (name version : String)
    (bundle : Bundle) (metadata : BundleManifestMetadata) : SourceState :=
  { st with
    files := ainsert st.files (get_filepath st.remote_dir name version) (bundleWriterWrite ic bundle),
    remoteManifest := (insert_entry st.remoteManifest name version metadata).2 }

/-! ## Protocol (`protocol/bundle.rs`) -/

inductive Method where
  | get
  | head
  | other (name : String)
  deriving DecidableEq, Repr

/-- A request as the protocol sees it: method, URI host (the bundle name per
the default resolver), URI path, and the optional `Range` header. -/
structure Request where
  method : Method
  host : Option String
  uriPath : String
  rangeHeader : Option String := none
  deriving DecidableEq, Repr

structure Response where
  status : Nat
  headers : List (String × String)
  body : Bytes
  deriving DecidableEq, Repr

/-- Modelled from the spec: `protocol/uri.rs` is not among the extracted
sources.  §4.3: the resolver returns the decoded URI path, defaulting to
`/index.html` when it is empty or `/`. -/
def resolve_path (uriPath : String) : String :=
  if uriPath = "" ∨ uriPath = "/" then "/index.html" else uriPath

/-- `HeaderMap::insert`: replace any value stored for the name. -/
def hset (hs : List (String × String)) (k v : String) : List (String × String) :=
  hs.filter (fun p => p.1 ≠ k) ++ [(k, v)]

/-- `not_found()`: `404`, no headers, empty body. -/
def notFoundResp : Response := ⟨404, [], []⟩

/-- `MAX_LEN`: the maximum bytes sent in one range. -/
def MAX_LEN : Nat := 1000 * 1024

/-- The response headers of the single-range branch: the base headers (entry
headers with `content-type` and `content-length` set), the range headers
(`accept-ranges`, `access-control-expose-headers`), then `content-range`
for the served range and `content-length` overridden to its width. -/
def singleRangeHeaders (entry : IndexEntry) (start end1 len : Nat) : List (String × String) :=
  hset (hset (hset (hset (hset (hset entry.headers "content-type" entry.content_type)
    "content-length" (toString entry.content_length)) "accept-ranges" "bytes")
    "access-control-expose-headers" "content-range")
    "content-range" ("bytes " ++ toString start ++ "-" ++ toString end1 ++ "/" ++ toString len))
    "content-length" (toString (end1 + 1 - start))

/-- `adjust_end`: clamp a range end to the content length and `MAX_LEN`. -/
def adjust_end (start end0 len : Nat) : Nat :=
  start + min (end0 - start) (min (len - start) (MAX_LEN - 1))

/-- `extract_buf`: the guard compares the clamped indices, but the slice
uses the unclamped bounds `data[start..end+1]`; `none` models the
out-of-bounds panic. -/
def extract_buf (data : Bytes) (start end0 : Nat) : Option Bytes :=
  let data_len := data.length
  let start_i := min start data_len
  let end_i := min end0 (data_len - 1)
  if start_i ≤ end_i then
    if start ≤ end0 + 1 ∧ end0 + 1 ≤ data_len then
      some ((data.drop start).take (end0 + 1 - start))
    else none
  else some []

/-- The multipart branch's filter: drop unsatisfiable ranges, adjust the
rest. -/
def satisfiableRanges (ranges : List (Nat × Nat)) (len : Nat) : List (Nat × Nat) :=
  ranges.filterMap (fun p =>
    if p.1 ≥ len ∨ p.2 ≥ len ∨ p.2 < p.1 then none
    else some (p.1, adjust_end p.1 p.2 len))

/-- One `multipart/byteranges` part: boundary separator, part headers, blank
line, then the range bytes. -/
def multipartPart (boundary ct : String) (len : Nat) (data : Bytes) (p : Nat × Nat) :
    Option Bytes :=
  (extract_buf data p.1 p.2).map (fun rangeBuf =>
    strBytes ("\r\n--" ++ boundary ++ "\r\n")
      ++ strBytes ("content-type: " ++ ct ++ "\r\n")
      ++ strBytes ("content-range: bytes " ++ toString p.1 ++ "-" ++ toString p.2 ++ "/"
          ++ toString len ++ "\r\n")
      ++ strBytes "\r\n" ++ rangeBuf)

/-- The multipart body: every part in order, closed by a final boundary
separator. -/
def multipartBody (boundary ct : String) (len : Nat) (data : Bytes)
    (rs : List (Nat × Nat)) : Option Bytes :=
  (rs.mapM (multipartPart boundary ct len data)).map (fun parts =>
    parts.flatten ++ strBytes ("\r\n--" ++ boundary ++ "\r\n"))

/-- `BundleProtocol::handle`.  Parameters: the lz4 codec, the source's
`load_descriptor` and `reader` capabilities, the http-range parser (external
crate, returning the code's `(start, start+length-1)` pairs), and the
random boundary (drawn by `random_boundary()`).  The outer `Option` models
a panic inside the handler (out-of-bounds `extract_buf`); the `Except`
models `crate::Result`. -/
def handle (lz : Lz4) (loadDescriptor : String → Except Error BundleDescriptor)
    (readerF : String → Except Error Bytes)
    (parseRanges : String → Nat → Option (List (Nat × Nat)))
    (boundary : String) (req : Request) : Option (Except Error Response) :=
  match req.host with
  | none => some (.error .bundleNotFound)
  | some name =>
    let path := resolve_path req.uriPath
    if ¬ (req.method = .get ∨ req.method = .head) then
      some (.ok ⟨405, [], []⟩)
    else
      match loadDescriptor name with
      | .error e => some (.error e)
      | .ok descriptor =>
        match alookup descriptor.index path with
        | none => some (.ok notFoundResp)
        | some entry =>
          let hs := hset (hset entry.headers "content-type" entry.content_type)
            "content-length" (toString entry.content_length)
          match req.rangeHeader with
          | some rangeHeader =>
            let hs := hset (hset hs "accept-ranges" "bytes")
              "access-control-expose-headers" "content-range"
            let len := entry.content_length
            let notSatisfiable : Response :=
              ⟨416, [("content-range", "bytes */" ++ toString len)], []⟩
            match parseRanges rangeHeader len with
            | none => some (.ok notSatisfiable)
            | some ranges =>
              if ranges.length = 1 then
                match ranges.head? with
                | none => some (.ok notSatisfiable)
                | some (start, end0) =>
                  if start ≥ len ∨ end0 ≥ len ∨ end0 < start then some (.ok notSatisfiable)
                  else
                    let end1 := adjust_end start end0 len
                    let hs := singleRangeHeaders entry start end1 len
                    if req.method = .head then some (.ok ⟨206, hs, []⟩)
                    else
                      match readerF name with
                      | .error e => some (.error e)
                      | .ok file =>
                        match descriptorGetData lz descriptor file path with
                        | .error e => some (.error e)
                        | .ok none => some (.ok notFoundResp)
                        | .ok (some data) =>
                          match extract_buf data start end1 with
                          | none => none
                          | some buf => some (.ok ⟨206, hs, buf⟩)
              else
                let rs := satisfiableRanges ranges len
                let hs := hset hs "content-type" ("multipart/byteranges; boundary=" ++ boundary)
                if req.method = .head then some (.ok ⟨206, hs, []⟩)
                else
                  match readerF name with
                  | .error e => some (.error e)
                  | .ok file =>
                    match descriptorGetData lz descriptor file path with
                    | .error e => some (.error e)
                    | .ok none => some (.ok notFoundResp)
                    | .ok (some data) =>
                      match multipartBody boundary entry.content_type len data rs with
                      | none => none
                      | some body => some (.ok ⟨206, hs, body⟩)
          | none =>
            if req.method = .head then some (.ok ⟨200, hs, []⟩)
            else
              match readerF name with
              | .error e => some (.error e)
              | .ok file =>
                match descriptorGetData lz descriptor file path with
                | .error e => some (.error e)
                | .ok none => some (.ok notFoundResp)
                | .ok (some data) => some (.ok ⟨200, hs, data⟩)

/-! ## Updater (`updater/updater.rs`) -/

structure RemoteBundleInfo where
  name : String
  version : String
  etag : Option String := none
  integrity : Option String := none
  signature : Option String := none
  last_modified : Option String := none
  deriving DecidableEq, Repr

/-- `From<&RemoteBundleInfo> for BundleManifestMetadata`. -/
def metadataFrom (info : RemoteBundleInfo) : BundleManifestMetadata :=
  ⟨info.etag, info.integrity, info.signature, info.last_modified⟩

/-- Modelled from the spec: `crate::integrity` is not among the extracted
sources; §4.5 fixes the policies {Disabled, Optional, Strict}. -/
inductive IntegrityPolicy where
  | disabled
  | optional
  | strict
  deriving DecidableEq, Repr

/-- Updater configuration: policy, integrity checker (abstract capability
returning `crate::Result<()>`), optional signature verifier (abstract
capability returning `crate::Result<bool>`). -/
structure UpdaterConfig where
  integrity_policy : IntegrityPolicy
  integrity_checker : String → Bytes → Except Error Unit
  signature_verifier : Option (Bundle → Bytes → String → Except Error Bool) := none

/-- The integrity step of `download_update`: Strict and Optional check a
present header; a missing header fails only under Strict. -/
def integrityGate (cfg : UpdaterConfig) (info : RemoteBundleInfo) (data : Bytes) :
    Except Error Unit :=
  match cfg.integrity_policy with
  | .strict | .optional =>
      match info.integrity with
      | some integrity => cfg.integrity_checker integrity data
      | none =>
          if cfg.integrity_policy = .strict then .error .integrityVerifyFailed else .ok ()
  | .disabled => .ok ()

/-- The signature step of `download_update`: when a verifier is configured,
the integrity header is the message (else `IntegrityRequired`), the
signature header must exist (else `SignatureNotExists`), and the verifier
must return true (else `SignatureVerifyFailed`). -/
def signatureGate (cfg : UpdaterConfig) (info : RemoteBundleInfo) (bundle : Bundle) :
    Except Error Unit :=
  match cfg.signature_verifier with
  | none => .ok ()
  | some verifier =>
      match info.integrity with
      | none => .error .integrityRequired
      | some message =>
        match info.signature with
        | none => .error .signatureNotExists
        | some signature =>
          match verifier bundle (strBytes message) signature with
          | .error e => .error e
          | .ok verified => if verified then .ok () else .error .signatureVerifyFailed

/-- `Updater::download_update` after the download itself: the downloaded
`info`, parsed `bundle` and raw `data` are inputs; the result carries the
post source state and whether `write_remote_bundle` was invoked. -/
def download_update (ic : IndexCodec) (cfg : UpdaterConfig) (st : SourceState)
    (info : RemoteBundleInfo) (bundle : Bundle) (data : Bytes) :
    Except Error RemoteBundleInfo × SourceState × Bool :=
  match integrityGate cfg info data with
  | .error e => (.error e, st, false)
  | .ok _ =>
    match signatureGate cfg info bundle with
    | .error e => (.error e, st, false)
    | .ok _ =>
      (.ok info, write_remote_bundle ic st info.name info.version bundle (metadataFrom info), true)

/-! ## Concrete codec instances

Executable instances of the two external-crate interfaces, used to evaluate
the parametric theorems on concrete inputs.  `lz4Model` realizes the
lz4_flex contract stated in spec §3 (4-byte little-endian uncompressed-size
prefix, decompression restores the original bytes); `bincodeModel` realizes
the big-endian-varint index encoding stated in spec §3. -/

/-- 4-byte little-endian serialization. -/
def u32le (n : Nat) : Bytes :=
  [n % 256, n / 2 ^ 8 % 256, n / 2 ^ 16 % 256, n / 2 ^ 24 % 256]

def lz4Model : Lz4 where
  comp data := u32le data.length ++ data
  decomp bs :=
    match bs with
    | s0 :: s1 :: s2 :: s3 :: rest =>
        if le32 s0 s1 s2 s3 = rest.length then .ok rest else .error .decompress
    | _ => .error .decompress

/-- Big-endian varint (bincode standard config): one byte below 251,
otherwise a width marker followed by big-endian bytes. -/
def eVarint (n : Nat) : Bytes :=
  if n < 251 then [n]
  else if n < 2 ^ 16 then [251, n / 256, n % 256]
  else if n < 2 ^ 32 then 252 :: u32be n
  else 253 :: (u32be (n / 2 ^ 32) ++ u32be (n % 2 ^ 32))

def eBytesField (bs : Bytes) : Bytes := eVarint bs.length ++ bs

def eStr (s : String) : Bytes := eBytesField (strBytes s)

/-- Encoded `(name, value)` header pair. -/
def eHeaderPair (p : String × String) : Bytes := eStr p.1 ++ eStr p.2

/-- Encoded index entry tuple
`(offset, len, content-type bytes, content-length, headers)`. -/
def eEntry (e : IndexEntry) : Bytes :=
  eVarint e.offset ++ eVarint e.len ++ eStr e.content_type ++ eVarint e.content_length
    ++ eVarint e.headers.length ++ (e.headers.map eHeaderPair).flatten

/-- Encoded index mapping: entry count, then `(path, entry)` records. -/
def eIndex (m : IndexMap) : Bytes :=
  eVarint m.length ++ (m.map (fun r => eStr r.1 ++ eEntry r.2)).flatten

def dVarint : Bytes → Option (Nat × Bytes)
  | [] => none
  | b :: rest =>
    if b < 251 then some (b, rest)
    else if b = 251 then
      match rest with
      | x :: y :: r => some (x * 256 + y, r)
      | _ => none
    else if b = 252 then
      match rest with
      | x :: y :: z :: w :: r => some (be32 x y z w, r)
      | _ => none
    else if b = 253 then
      match rest with
      | x0 :: x1 :: x2 :: x3 :: y0 :: y1 :: y2 :: y3 :: r =>
          some (be32 x0 x1 x2 x3 * 2 ^ 32 + be32 y0 y1 y2 y3, r)
      | _ => none
    else none

def dTake (n : Nat) (bs : Bytes) : Option (Bytes × Bytes) :=
  if n ≤ bs.length then some (bs.take n, bs.drop n) else none

def dStr (bs : Bytes) : Option (String × Bytes) :=
  match dVarint bs with
  | none => none
  | some (n, rest) =>
    match dTake n rest with
    | none => none
    | some (raw, rest) => some (String.mk (raw.map Char.ofNat), rest)

def dHeaderPairs : Nat → Bytes → Option (List (String × String) × Bytes)
  | 0, bs => some ([], bs)
  | n + 1, bs =>
    match dStr bs with
    | none => none
    | some (k, bs) =>
      match dStr bs with
      | none => none
      | some (v, bs) =>
        match dHeaderPairs n bs with
        | none => none
        | some (pairs, bs) => some ((k, v) :: pairs, bs)

def dEntry (bs : Bytes) : Option (IndexEntry × Bytes) :=
  match dVarint bs with
  | none => none
  | some (offset, bs) =>
    match dVarint bs with
    | none => none
    | some (len, bs) =>
      match dStr bs with
      | none => none
      | some (ct, bs) =>
        match dVarint bs with
        | none => none
        | some (clen, bs) =>
          match dVarint bs with
          | none => none
          | some (hcount, bs) =>
            match dHeaderPairs hcount bs with
            | none => none
            | some (headers, bs) => some (⟨offset, len, ct, clen, headers⟩, bs)

def dRecords : Nat → Bytes → Option (IndexMap × Bytes)
  | 0, bs => some ([], bs)
  | n + 1, bs =>
    match dStr bs with
    | none => none
    | some (path, bs) =>
      match dEntry bs with
      | none => none
      | some (entry, bs) =>
        match dRecords n bs with
        | none => none
        | some (records, bs) => some ((path, entry) :: records, bs)

def dIndex (bs : Bytes) : Option (IndexMap × Bytes) :=
  match dVarint bs with
  | none => none
  | some (count, bs) => dRecords count bs

def bincodeModel : IndexCodec where
  enc := eIndex
  dec bs :=
    match dIndex bs with
    | none => .error .decode
    | some (m, _) => .ok m

/-! ## Helper lemmas -/

theorem drop_append_add (a b : Bytes) (n : Nat) : (a ++ b).drop (a.length + n) = b.drop n := by
  induction a with
  | nil => simp
  | cons x xs ih => simp [Nat.succ_add, ih]

theorem readAt_prefix_eq (a b : Bytes) (len : Nat) (h : a.length = len) :
    readAt (a ++ b) 0 len = some a := by
  subst h
  simp [readAt, List.take_left]

theorem readAt_skip (a b : Bytes) (off len skip : Nat) (h : a.length = skip) :
    readAt (a ++ b) (skip + off) len = readAt b off len := by
  subst h
  by_cases hc : off + len ≤ b.length
  · rw [readAt, readAt, if_pos (by simp; omega), if_pos hc, drop_append_add]
  · rw [readAt, readAt, if_neg (by simp; omega), if_neg hc]

theorem u32be_length (n : Nat) : (u32be n).length = 4 := rfl

theorem be32Of_u32be (n : Nat) (h : n < 2 ^ 32) : be32Of (u32be n) = n := by
  simp only [be32Of, u32be, be32]
  omega

theorem headerWriterWrite_eq (seed : Nat) (h : Header) :
    headerWriterWrite seed h =
      MAGIC ++ ([1] ++ (u32be (h.index_size % 2 ^ 32) ++
        u32be (make_checksum seed (MAGIC ++ [1] ++ u32be (h.index_size % 2 ^ 32))))) := by
  obtain ⟨v, isz⟩ := h
  cases v
  simp [headerWriterWrite, write_checksum, Version.bytes, List.append_assoc]

theorem headerReaderRead_prefix (seed : Nat) (h : Header) (rest : Bytes) :
    headerReaderRead {} (headerWriterWrite seed h ++ rest) = .ok ⟨.v1, h.index_size % 2 ^ 32⟩ := by
  rw [headerWriterWrite_eq]
  set m := h.index_size % 2 ^ 32 with hm
  set c := make_checksum seed (MAGIC ++ [1] ++ u32be m) with hc
  rw [List.append_assoc, List.append_assoc, List.append_assoc]
  set tail := u32be c ++ rest with htail
  have e1 : readAt (MAGIC ++ ([1] ++ (u32be m ++ tail))) 0 8 = some MAGIC :=
    readAt_prefix_eq _ _ 8 rfl
  have e2 : readAt (MAGIC ++ ([1] ++ (u32be m ++ tail))) 8 1 = some [1] := by
    have := readAt_skip MAGIC ([1] ++ (u32be m ++ tail)) 0 1 8 rfl
    rw [Nat.add_zero] at this
    rw [this]
    exact readAt_prefix_eq _ _ 1 rfl
  have e3 : readAt (MAGIC ++ ([1] ++ (u32be m ++ tail))) 9 4 = some (u32be m) := by
    have h1 := readAt_skip MAGIC ([1] ++ (u32be m ++ tail)) 1 4 8 rfl
    rw [show (8 : Nat) + 1 = 9 from rfl] at h1
    rw [h1]
    have h2 := readAt_skip [1] (u32be m ++ tail) 0 4 1 rfl
    rw [Nat.add_zero] at h2
    rw [h2]
    exact readAt_prefix_eq _ _ 4 (u32be_length m)
  have e4 : readAt (MAGIC ++ ([1] ++ (u32be m ++ tail))) 13 4 = some (u32be c) := by
    have h1 := readAt_skip MAGIC ([1] ++ (u32be m ++ tail)) 5 4 8 rfl
    rw [show (8 : Nat) + 5 = 13 from rfl] at h1
    rw [h1]
    have h2 := readAt_skip [1] (u32be m ++ tail) 4 4 1 rfl
    rw [show (1 : Nat) + 4 = 5 from rfl] at h2
    rw [h2]
    have h3 := readAt_skip (u32be m) tail 0 4 4 (u32be_length m)
    rw [Nat.add_zero] at h3
    rw [h3, htail]
    exact readAt_prefix_eq _ _ 4 (u32be_length c)
  rw [headerReaderRead, e1, e2, e3, e4]
  simp [be32Of_u32be m (Nat.mod_lt _ (by norm_num)), Version.bytes]

theorem headerWriterWrite_length (seed : Nat) (h : Header) :
    (headerWriterWrite seed h).length = 17 := by
  rw [headerWriterWrite_eq]
  simp [MAGIC, u32be]

theorem u32be_length_eq (n : Nat) : (u32be n).length = 4 := rfl

theorem indexReaderRead_written (ic : IndexCodec) (seed : Nat) (hdr : Header) (idx : IndexMap)
    (ck : Nat) (data : Bytes)
    (henc : hdr.index_size = (ic.enc idx).length)
    (hdec : ic.dec (ic.enc idx) = .ok idx) :
    indexReaderRead ic {} hdr
      (headerWriterWrite seed hdr ++ (ic.enc idx ++ (u32be ck ++ data))) = .ok idx := by
  have hwlen : (headerWriterWrite seed hdr).length = 17 := headerWriterWrite_length seed hdr
  have e1 : readAt (headerWriterWrite seed hdr ++ (ic.enc idx ++ (u32be ck ++ data))) 17
      hdr.index_size = some (ic.enc idx) := by
    have h1 := readAt_skip (headerWriterWrite seed hdr) (ic.enc idx ++ (u32be ck ++ data))
      0 hdr.index_size 17 hwlen
    rw [Nat.add_zero] at h1
    rw [h1]
    exact readAt_prefix_eq _ _ _ henc.symm
  have e2 : readAt (headerWriterWrite seed hdr ++ (ic.enc idx ++ (u32be ck ++ data)))
      (17 + hdr.index_size) 4 = some (u32be ck) := by
    have h1 := readAt_skip (headerWriterWrite seed hdr) (ic.enc idx ++ (u32be ck ++ data))
      hdr.index_size 4 17 hwlen
    rw [h1]
    have h2 := readAt_skip (ic.enc idx) (u32be ck ++ data) 0 4 hdr.index_size henc.symm
    rw [Nat.add_zero] at h2
    rw [h2]
    exact readAt_prefix_eq _ _ _ (u32be_length_eq ck)
  simp only [indexReaderRead, e1, hdec, e2]
  rfl

theorem bundle_write_read (ic : IndexCodec) (b : Bundle)
    (hver : b.descriptor.header.version = .v1)
    (hsz : b.descriptor.header.index_size = (ic.enc b.descriptor.index).length)
    (hlt : b.descriptor.header.index_size < 2 ^ 32)
    (hdec : ic.dec (ic.enc b.descriptor.index) = .ok b.descriptor.index) :
    bundleReaderRead ic (bundleWriterWrite ic b) = .ok b := by
  obtain ⟨⟨⟨v, isz⟩, idx⟩, data⟩ := b
  cases v
  simp only at hsz hlt hdec
  have hw : bundleWriterWrite ic ⟨⟨⟨.v1, isz⟩, idx⟩, data⟩ =
      headerWriterWrite 0 ⟨.v1, isz⟩ ++
        (ic.enc idx ++ (u32be (make_checksum 0 (ic.enc idx)) ++ data)) := by
    simp [bundleWriterWrite, indexWriterWrite, write_checksum, List.append_assoc]
  have hmod : isz % 2 ^ 32 = isz := Nat.mod_eq_of_lt hlt
  have hhdr : headerReaderRead {} (bundleWriterWrite ic ⟨⟨⟨.v1, isz⟩, idx⟩, data⟩) =
      .ok ⟨.v1, isz⟩ := by
    rw [hw, headerReaderRead_prefix]
    simp only at hmod ⊢
    rw [hmod]
  have hidx : indexReaderRead ic {} ⟨.v1, isz⟩
      (bundleWriterWrite ic ⟨⟨⟨.v1, isz⟩, idx⟩, data⟩) = .ok idx := by
    rw [hw]
    exact indexReaderRead_written ic 0 ⟨.v1, isz⟩ idx _ data hsz hdec
  have hdata : bundleReadData ⟨.v1, isz⟩ (bundleWriterWrite ic ⟨⟨⟨.v1, isz⟩, idx⟩, data⟩) = data := by
    rw [hw, bundleReadData, Header.index_end_offset]
    have h17 : (17 : Nat) + isz + CHECKSUM_LEN =
        (headerWriterWrite 0 (⟨.v1, isz⟩ : Header)).length + (isz + 4) := by
      rw [headerWriterWrite_length]
      simp [CHECKSUM_LEN]
      omega
    simp only at h17
    rw [h17, drop_append_add]
    have h2 : isz + 4 = (ic.enc idx).length + 4 := by rw [hsz]
    rw [h2, drop_append_add]
    have h3 : (4 : Nat) = (u32be (make_checksum 0 (ic.enc idx))).length + 0 := by
      rw [u32be_length_eq]
    rw [h3, drop_append_add, List.drop_zero]
  simp only [bundleReaderRead, hhdr, hidx, hdata]

theorem build_data_cons (seed : Nat) (head : String × BundleEntry)
    (rest : List (String × BundleEntry)) :
    build_data seed (head :: rest) =
      head.2.compressed ++ (u32be (make_checksum seed head.2.compressed) ++ build_data seed rest) := by
  simp [build_data, List.append_assoc]

theorem build_lookup_slice (seed : Nat) (L : List (String × BundleEntry)) :
    ∀ (off : Nat) (p : String) (e : BundleEntry),
      (L.map Prod.fst).Nodup → (p, e) ∈ L →
      ∃ ie, alookup (buildIndexAux L off) p = some ie ∧
        ie.len = e.compressed.length ∧
        ie.content_type = e.content_type ∧
        ie.content_length = e.content_length ∧
        ie.headers = e.headers.getD [] ∧
        off ≤ ie.offset ∧
        readAt (build_data seed L) (ie.offset - off) ie.len = some e.compressed := by
  induction L with
  | nil =>
    intro off p e _ hmem
    cases hmem
  | cons head rest ih =>
    intro off p e hnodup hmem
    obtain ⟨q, he⟩ := head
    rcases List.mem_cons.mp hmem with heq | hmem'
    · cases heq
      refine ⟨{ offset := off, len := e.compressed.length, content_type := e.content_type,
                content_length := e.content_length, headers := e.headers.getD [] },
          ?_, rfl, rfl, rfl, rfl, Nat.le_refl off, ?_⟩
      · simp [buildIndexAux, alookup]
      · rw [build_data_cons]
        simp only [Nat.sub_self]
        exact readAt_prefix_eq _ _ _ rfl
    · have hqp : q ≠ p := by
        have hq : q ∉ rest.map Prod.fst := by
          simp only [List.map_cons, List.nodup_cons] at hnodup
          exact hnodup.1
        have hp : p ∈ rest.map Prod.fst := List.mem_map_of_mem Prod.fst hmem'
        intro hcontra
        exact hq (hcontra ▸ hp)
      have hnodup' : (rest.map Prod.fst).Nodup := by
        simp only [List.map_cons, List.nodup_cons] at hnodup
        exact hnodup.2
      obtain ⟨ie, hlook, hlen, hct, hcl, hhd, hoff, hread⟩ :=
        ih (off + he.compressed.length + CHECKSUM_LEN) p e hnodup' hmem'
      refine ⟨ie, ?_, hlen, hct, hcl, hhd, by omega, ?_⟩
      · simp only [buildIndexAux, alookup]
        rw [if_neg hqp]
        exact hlook
      · rw [build_data_cons]
        have hsplit : ie.offset - off =
            (he.compressed ++ u32be (make_checksum seed he.compressed)).length +
              (ie.offset - (off + he.compressed.length + CHECKSUM_LEN)) := by
          simp only [List.length_append, u32be_length_eq, CHECKSUM_LEN] at hoff ⊢
          omega
        rw [← List.append_assoc, hsplit, readAt_skip _ _ _ _ _ rfl]
        exact hread

/-- C1: for every mapping `M` from distinct paths to
`(bytes, content-type, headers)` triples, building a bundle with
`BundleBuilder::build`, writing it with `BundleWriter::write` and reading
the written bytes back with `BundleReader` yields the built bundle (in
particular its index entries equal the built index), and `get_data`
returns `Some` of the original uncompressed bytes for every path of `M`.
Hypotheses: the paths are distinct, the encoded index fits the format's
4-byte index-size field, and the bincode/lz4 codecs round-trip on the
values actually encoded (the source calls those external crates through
exactly this interface). -/
theorem bundle_build_write_read_roundtrip
    (ic : IndexCodec) (lz : Lz4) (seed : Nat)
    (M : List (String × Bytes × String × Option (List (String × String))))
    (hnodup : (M.map Prod.fst).Nodup)
    (hsize : (ic.enc (build_index (builderOf lz M))).length < 2 ^ 32)
    (hdec : ic.dec (ic.enc (build_index (builderOf lz M))) = .ok (build_index (builderOf lz M)))
    (hlz : ∀ r ∈ M, lz.decomp (lz.comp r.2.1) = .ok r.2.1) :
    bundleReaderRead ic (bundleWriterWrite ic (bundleBuild ic seed (builderOf lz M))) =
      .ok (bundleBuild ic seed (builderOf lz M)) ∧
    ∀ r ∈ M, bundleGetData lz (bundleBuild ic seed (builderOf lz M)) r.1 = .ok (some r.2.1) := by
  constructor
  · apply bundle_write_read
    · rfl
    · exact Nat.mod_eq_of_lt hsize
    · exact Nat.mod_lt _ (by norm_num)
    · exact hdec
  · intro r hr
    have hfst : (builderOf lz M).map Prod.fst = M.map Prod.fst := by
      simp only [builderOf, List.map_map]
      rfl
    have hmem : (r.1, BundleEntry.new lz r.2.1 r.2.2.1 r.2.2.2) ∈ builderOf lz M :=
      List.mem_map_of_mem _ hr
    obtain ⟨ie, hlook, hlen, _, _, _, _, hread⟩ :=
      build_lookup_slice seed (builderOf lz M) 0 r.1
        (BundleEntry.new lz r.2.1 r.2.2.1 r.2.2.2) (by rw [hfst]; exact hnodup) hmem
    rw [Nat.sub_zero] at hread
    simp only [bundleGetData, bundleBuild, build_index, hlook, readEntryData, Nat.zero_add, hread]
    have hcomp : (BundleEntry.new lz r.2.1 r.2.2.1 r.2.2.2).compressed = lz.comp r.2.1 := rfl
    rw [hcomp, hlz r hr]
    rfl

/-- C1 witness: the round-trip theorem applied to a concrete two-entry
mapping with the concrete codec models. -/
theorem bundle_build_write_read_roundtrip_witness :
    bundleReaderRead bincodeModel (bundleWriterWrite bincodeModel
        (bundleBuild bincodeModel 0 (builderOf lz4Model
          [("/index.html", ([72, 105], "text/html", none)),
           ("/a.js", ([65], "text/javascript", some [("x-test", "1")]))]))) =
      .ok (bundleBuild bincodeModel 0 (builderOf lz4Model
          [("/index.html", ([72, 105], "text/html", none)),
           ("/a.js", ([65], "text/javascript", some [("x-test", "1")]))])) ∧
    bundleGetData lz4Model (bundleBuild bincodeModel 0 (builderOf lz4Model
          [("/index.html", ([72, 105], "text/html", none)),
           ("/a.js", ([65], "text/javascript", some [("x-test", "1")]))])) "/index.html" =
      .ok (some [72, 105]) := by
  have h := bundle_build_write_read_roundtrip bincodeModel lz4Model 0
    [("/index.html", ([72, 105], "text/html", none)),
     ("/a.js", ([65], "text/javascript", some [("x-test", "1")]))]
    (by decide) (by decide) (by rfl)
    (by
      intro r hr
      simp only [List.mem_cons, List.not_mem_nil, or_false] at hr
      rcases hr with rfl | rfl <;> rfl)
  exact ⟨h.1, h.2 ("/index.html", ([72, 105], "text/html", none)) (by simp)⟩

/-- C9: writing a header with version `V1`, index size 1234 and the default
checksum seed produces exactly the 17-byte reference sequence
`F0 9F 8C 90 F0 9F 8E 81 01 00 00 04 D2 31 38 03 10`, the writer reports 17
bytes written, and reading those bytes back yields the written header. -/
theorem header_test_vector :
    headerWriterWrite 0 ⟨.v1, 1234⟩ =
      [0xF0, 0x9F, 0x8C, 0x90, 0xF0, 0x9F, 0x8E, 0x81, 0x01, 0x00, 0x00, 0x04, 0xD2,
       0x31, 0x38, 0x03, 0x10] ∧
    (headerWriterWrite 0 ⟨.v1, 1234⟩).length = 17 ∧
    headerReaderRead {} (headerWriterWrite 0 ⟨.v1, 1234⟩) = .ok ⟨.v1, 1234⟩ :=
  ⟨by decide, by decide, by rfl⟩

theorem extract_buf_in_bounds (data : Bytes) (s e : Nat) (hse : s ≤ e) (he : e < data.length) :
    extract_buf data s e = some ((data.drop s).take (e + 1 - s)) := by
  simp only [extract_buf]
  rw [if_pos (by omega), if_pos ⟨by omega, by omega⟩]

theorem extract_buf_oob (data : Bytes) (s e : Nat) (hs : s < data.length) (he : data.length ≤ e) :
    extract_buf data s e = none := by
  simp only [extract_buf]
  rw [if_pos (by omega), if_neg (by omega)]

/-- C10: when `start ≤ end < data.len()`, `extract_buf` returns exactly the
bytes `data[start..=end]`; the precondition is required, because when
`start < data.len() ≤ end` the guard over the clamped indices still passes
while the slice uses the unclamped bound `end+1` and panics out of bounds
(modelled as `none`) — so range serving is in-bounds only when the
decompressed entry is at least as long as the content length the range was
validated against. -/
theorem extract_buf_slice_safety :
    (∀ (data : Bytes) (s e : Nat), s ≤ e → e < data.length →
      extract_buf data s e = some ((data.drop s).take (e + 1 - s))) ∧
    (∀ (data : Bytes) (s e : Nat), s < data.length → data.length ≤ e →
      extract_buf data s e = none) :=
  ⟨extract_buf_in_bounds, extract_buf_oob⟩

/-- C10 witness: in-bounds extraction on a concrete slice, and the
out-of-bounds panic case on the same data. -/
theorem extract_buf_slice_safety_witness :
    extract_buf [10, 20, 30] 1 2 = some [20, 30] ∧ extract_buf [10, 20, 30] 1 5 = none :=
  ⟨extract_buf_slice_safety.1 [10, 20, 30] 1 2 (by decide) (by decide),
   extract_buf_slice_safety.2 [10, 20, 30] 1 5 (by decide) (by decide)⟩

/-- C8 counterexample: a request whose method is `POST` but whose URI has no
resolvable bundle host makes the handler surface the `BundleNotFound` error
before the method gate, not a `405` response — so the claim does not hold
for arbitrary URIs. -/
theorem method_gate_counterexample :
    handle lz4Model (fun _ => .error .bundleNotFound) (fun _ => .error .bundleNotFound)
        (fun _ _ => none) "" ⟨.other "POST", none, "/", none⟩ =
      some (.error .bundleNotFound) ∧
    (some (.error .bundleNotFound) : Option (Except Error Response)) ≠
      some (.ok ⟨405, [], []⟩) :=
  ⟨rfl, by simp⟩

/-- C8 amended: for every request whose method is neither GET nor HEAD and
whose URI resolves to a bundle name, the handler returns `405` with empty
body and no additional headers (the method gate runs before any source
access, so this holds regardless of whether the bundle exists). -/
theorem method_gate_405 (lz : Lz4) (lD : String → Except Error BundleDescriptor)
    (rF : String → Except Error Bytes) (pr : String → Nat → Option (List (Nat × Nat)))
    (bd : String) (req : Request) (name : String)
    (hhost : req.host = some name)
    (hm : ¬(req.method = .get ∨ req.method = .head)) :
    handle lz lD rF pr bd req = some (.ok ⟨405, [], []⟩) := by
  simp only [handle, hhost, if_pos hm]

/-- C8 witness: a concrete `POST` to a resolvable bundle host gets `405`. -/
theorem method_gate_405_witness :
    handle lz4Model (fun _ => .error .bundleNotFound) (fun _ => .error .bundleNotFound)
      (fun _ _ => none) "" ⟨.other "POST", some "app", "/", none⟩ = some (.ok ⟨405, [], []⟩) :=
  method_gate_405 _ _ _ _ _ _ "app" rfl (by decide)

theorem amodify_congr {α : Type} (m : List (String × α)) (k : String) (f : α → α)
    (h : ∀ x, alookup m k = some x → f x = x) : amodify m k f = m := by
  induction m with
  | nil => rfl
  | cons head rest ih =>
    obtain ⟨q, w⟩ := head
    by_cases hq : q = k
    · subst hq
      have hw := h w (by rw [alookup, if_pos rfl])
      simp [amodify, hw]
    · simp only [amodify, if_neg hq, List.cons.injEq, true_and]
      refine ih (fun x hx => h x ?_)
      rw [alookup, if_neg hq]
      exact hx

theorem alookup_amodify {α : Type} (m : List (String × α)) (k key : String) (f : α → α) :
    alookup (amodify m k f) key = if k = key then (alookup m key).map f else alookup m key := by
  induction m with
  | nil => by_cases h : k = key <;> simp [amodify, alookup, h]
  | cons head rest ih =>
    obtain ⟨q, w⟩ := head
    by_cases hqk : q = k
    · subst hqk
      by_cases hqkey : q = key
      · subst hqkey
        simp [amodify, alookup]
      · simp [amodify, alookup, hqkey, ih]
    · by_cases hqkey : q = key
      · subst hqkey
        have hk : k ≠ q := fun hc => hqk hc.symm
        simp [amodify, alookup, hqk, hk]
      · simp [amodify, alookup, hqk, hqkey, ih]

theorem alookup_ainsert {α : Type} (m : List (String × α)) (k key : String) (v : α) :
    alookup (ainsert m k v) key = if k = key then some v else alookup m key := by
  induction m with
  | nil => by_cases h : k = key <;> simp [ainsert, alookup, h]
  | cons head rest ih =>
    obtain ⟨q, w⟩ := head
    by_cases hqk : q = k
    · subst hqk
      by_cases hqkey : q = key
      · subst hqkey
        simp [ainsert, alookup]
      · simp [ainsert, alookup, hqkey]
    · by_cases hqkey : q = key
      · subst hqkey
        have hk : k ≠ q := fun hc => hqk hc.symm
        simp [ainsert, alookup, hqk, hk]
      · simp [ainsert, alookup, hqk, hqkey, ih]

theorem alookup_aremove_ne {α : Type} (m : List (String × α)) (k key : String) (hne : key ≠ k) :
    alookup (aremove m k) key = alookup m key := by
  induction m with
  | nil => rfl
  | cons head rest ih =>
    obtain ⟨q, w⟩ := head
    by_cases hqk : q = k
    · subst hqk
      have : q ≠ key := fun hc => hne (hc.symm)
      simp [aremove, alookup, this]
    · by_cases hqkey : q = key
      · subst hqkey
        simp [aremove, alookup, hqk]
      · simp [aremove, alookup, hqk, hqkey, ih]

theorem alookup_append {α : Type} (m1 m2 : List (String × α)) (key : String) :
    alookup (m1 ++ m2) key =
      match alookup m1 key with
      | some w => some w
      | none => alookup m2 key := by
  induction m1 with
  | nil => rfl
  | cons head rest ih =>
    obtain ⟨q, w⟩ := head
    by_cases hq : q = key
    · simp [alookup, hq]
    · simp [alookup, hq, ih]

/-- C5: manifest mutations whose precondition fails return their typed
result and leave the manifest state unchanged: `update_current_version` on
a missing `(bundle, version)` returns `BundleEntryNotExists`; `remove_entry`
of the current version returns `BundleCannotBeRemoved`; `insert_entry` of an
existing version returns `false`; in each case the post state equals the pre
state. -/
theorem manifest_failed_mutations :
    (∀ d b v, contains_entry d b v = false →
      update_current_version d b v = (.error (.bundleEntryNotExists b v), d)) ∧
    (∀ d b v entry, alookup d.entries b = some entry → entry.current_version = v →
      remove_entry d b v = (.error (.bundleCannotBeRemoved b v), d)) ∧
    (∀ d b v m entry, alookup d.entries b = some entry → acontains entry.versions v = true →
      insert_entry d b v m = (false, d)) := by
  refine ⟨?_, ?_, ?_⟩
  · intro d b v h
    rw [update_current_version, if_pos (by simp [h])]
  · intro d b v entry hlook hcur
    simp only [remove_entry, hlook]
    rw [if_pos hcur]
  · intro d b v m entry hlook hcont
    obtain ⟨entries⟩ := d
    simp only at hlook
    have hac : acontains entries b = true := by simp [acontains, hlook]
    have hmod : amodify entries b
        (fun e =>
          if acontains e.versions v then e
          else { e with versions := ainsert e.versions v m }) = entries := by
      refine amodify_congr _ _ _ (fun x hx => ?_)
      rw [hlook] at hx
      cases hx
      rw [if_pos hcont]
    simp only [insert_entry, hlook, hcont, amodifyOrInsert, hac, if_pos, hmod,
      Bool.not_true, if_true]

/-- C5 witness: the three failed mutations on a concrete manifest. -/
theorem manifest_failed_mutations_witness :
    update_current_version ⟨[("app", ⟨[("1.0.0", {})], "1.0.0"⟩)]⟩ "app" "9.9.9" =
      (.error (.bundleEntryNotExists "app" "9.9.9"), ⟨[("app", ⟨[("1.0.0", {})], "1.0.0"⟩)]⟩) ∧
    remove_entry ⟨[("app", ⟨[("1.0.0", {})], "1.0.0"⟩)]⟩ "app" "1.0.0" =
      (.error (.bundleCannotBeRemoved "app" "1.0.0"), ⟨[("app", ⟨[("1.0.0", {})], "1.0.0"⟩)]⟩) ∧
    insert_entry ⟨[("app", ⟨[("1.0.0", {})], "1.0.0"⟩)]⟩ "app" "1.0.0" {} =
      (false, ⟨[("app", ⟨[("1.0.0", {})], "1.0.0"⟩)]⟩) :=
  ⟨manifest_failed_mutations.1 _ "app" "9.9.9" (by decide),
   manifest_failed_mutations.2.1 _ "app" "1.0.0" ⟨[("1.0.0", {})], "1.0.0"⟩ (by decide) rfl,
   manifest_failed_mutations.2.2 _ "app" "1.0.0" {} ⟨[("1.0.0", {})], "1.0.0"⟩ (by decide)
     (by decide)⟩

/-- C6: if every bundle's `currentVersion` is a key of its `versions` map,
then after `update_current_version`, `insert_entry` or `remove_entry` (with
any arguments) the invariant still holds: `insert_entry` on a previously
absent bundle initializes `currentVersion` to the inserted version,
`update_current_version` only sets a version it has verified to exist, and
`remove_entry` refuses to remove the current version. -/
theorem manifest_invariant_preserved (d : BundleManifestData) (hwf : ManifestWf d) :
    (∀ b v, ManifestWf (update_current_version d b v).2) ∧
    (∀ b v m, ManifestWf (insert_entry d b v m).2) ∧
    (∀ b v, ManifestWf (remove_entry d b v).2) := by
  refine ⟨?_, ?_, ?_⟩
  · -- update_current_version
    intro b v
    by_cases hc : contains_entry d b v = true
    · rw [update_current_version, if_neg (by simp [hc])]
      intro b' e' hlook'
      rw [alookup_amodify] at hlook'
      by_cases hbb : b = b'
      · rw [if_pos hbb] at hlook'
        obtain ⟨e0, he0, hfe⟩ := Option.map_eq_some'.mp hlook'
        subst hbb
        rw [contains_entry, he0] at hc
        cases hfe
        simpa using hc
      · rw [if_neg hbb] at hlook'
        exact hwf _ _ hlook'
    · rw [update_current_version, if_pos (by simpa using hc)]
      exact hwf
  · -- insert_entry
    intro b v m b' e' hlook'
    simp only [insert_entry, amodifyOrInsert] at hlook'
    by_cases hb : acontains d.entries b = true
    · rw [if_pos hb, alookup_amodify] at hlook'
      by_cases hbb : b = b'
      · rw [if_pos hbb] at hlook'
        obtain ⟨e0, he0, hfe⟩ := Option.map_eq_some'.mp hlook'
        by_cases hv : acontains e0.versions v = true
        · rw [if_pos hv] at hfe
          subst hbb
          cases hfe
          exact hwf _ _ he0
        · rw [if_neg hv] at hfe
          subst hbb
          cases hfe
          have hcur := hwf _ _ he0
          simp only [acontains, alookup_ainsert]
          by_cases hveq : v = e0.current_version
          · rw [if_pos hveq]
            rfl
          · rw [if_neg hveq]
            exact hcur
      · rw [if_neg hbb] at hlook'
        exact hwf _ _ hlook'
    · rw [if_neg hb, alookup_append] at hlook'
      match hm1 : alookup d.entries b' with
      | some w =>
        rw [hm1] at hlook'
        cases hlook'
        exact hwf _ _ hm1
      | none =>
        rw [hm1] at hlook'
        simp only [alookup] at hlook'
        by_cases hbb : b = b'
        · rw [if_pos hbb] at hlook'
          cases hlook'
          simp [acontains, alookup]
        · rw [if_neg hbb] at hlook'
          cases hlook'
  · -- remove_entry
    intro b v
    match hm1 : alookup d.entries b with
    | none =>
      simp only [remove_entry, hm1]
      exact hwf
    | some entry =>
      by_cases hcur : entry.current_version = v
      · simp only [remove_entry, hm1, if_pos hcur]
        exact hwf
      · simp only [remove_entry, hm1, if_neg hcur]
        intro b' e' hlook'
        rw [alookup_amodify] at hlook'
        by_cases hbb : b = b'
        · rw [if_pos hbb] at hlook'
          obtain ⟨e0, he0, hfe⟩ := Option.map_eq_some'.mp hlook'
          subst hbb
          cases hfe
          rw [hm1] at he0
          cases he0
          have hcv := hwf _ _ hm1
          simp only [acontains, alookup_aremove_ne _ _ _ hcur]
          exact hcv
        · rw [if_neg hbb] at hlook'
          exact hwf _ _ hlook'

/-- C6 witness: invariant preservation applied at a concrete well-formed
manifest for each of the three mutations. -/
theorem manifest_invariant_preserved_witness :
    ManifestWf (update_current_version ⟨[("app", ⟨[("1.0.0", {})], "1.0.0"⟩)]⟩ "app" "2.0.0").2 ∧
    ManifestWf (insert_entry ⟨[("app", ⟨[("1.0.0", {})], "1.0.0"⟩)]⟩ "vite" "1.0.0" {}).2 ∧
    ManifestWf (remove_entry ⟨[("app", ⟨[("1.0.0", {})], "1.0.0"⟩)]⟩ "app" "0.9.0").2 := by
  have hwf : ManifestWf ⟨[("app", ⟨[("1.0.0", {})], "1.0.0"⟩)]⟩ := by
    intro b entry h
    simp only [alookup] at h
    split at h
    · cases h
      decide
    · cases h
  exact ⟨(manifest_invariant_preserved _ hwf).1 "app" "2.0.0",
         (manifest_invariant_preserved _ hwf).2.1 "vite" "1.0.0" {},
         (manifest_invariant_preserved _ hwf).2.2 "app" "0.9.0"⟩

/-- C2: for every satisfiable parsed range the adjusted end equals
`start + min(end-start, len-start-1, MAX-1)` with `MAX = 1000 × 1024` (the
code computes `min(end-start, len-start, MAX-1)`, which coincides under the
satisfiability guard `end < len`); a GET/HEAD request whose single parsed
range is unsatisfiable (`start ≥ len`, `end ≥ len`, or `end < start`) gets
`416` with `content-range: bytes */len` and empty body; and the multipart
filter drops exactly the unsatisfiable ranges, adjusting the rest. -/
theorem range_normalization :
    (∀ start end0 len : Nat, start < len → end0 < len → start ≤ end0 →
      adjust_end start end0 len =
        start + min (end0 - start) (min (len - start - 1) (MAX_LEN - 1))) ∧
    (∀ (lz : Lz4) (lD : String → Except Error BundleDescriptor)
        (rF : String → Except Error Bytes) (pr : String → Nat → Option (List (Nat × Nat)))
        (bd : String) (req : Request) (name : String) (D : BundleDescriptor)
        (entry : IndexEntry) (rh : String) (s e : Nat),
      req.host = some name →
      (req.method = .get ∨ req.method = .head) →
      req.rangeHeader = some rh →
      lD name = .ok D →
      alookup D.index (resolve_path req.uriPath) = some entry →
      pr rh entry.content_length = some [(s, e)] →
      (s ≥ entry.content_length ∨ e ≥ entry.content_length ∨ e < s) →
      handle lz lD rF pr bd req =
        some (.ok ⟨416, [("content-range", "bytes */" ++ toString entry.content_length)], []⟩)) ∧
    (∀ (ranges : List (Nat × Nat)) (len : Nat),
      satisfiableRanges ranges len =
        (ranges.filter (fun p => decide (p.1 < len ∧ p.2 < len ∧ p.1 ≤ p.2))).map
          (fun p => (p.1, adjust_end p.1 p.2 len))) := by
  refine ⟨?_, ?_, ?_⟩
  · intro start end0 len h1 h2 h3
    simp only [adjust_end, MAX_LEN]
    omega
  · intro lz lD rF pr bd req name D entry rh s e hhost hm hrh hld hlook hpr hunsat
    simp only [handle, hhost, hrh, hld, hlook, hpr, if_neg (not_not_intro hm),
      List.length_cons, List.length_nil, if_pos rfl, List.head?_cons, if_pos hunsat]
    rw [if_pos trivial]
  · intro ranges len
    induction ranges with
    | nil => rfl
    | cons head tail ih =>
      by_cases h : head.1 ≥ len ∨ head.2 ≥ len ∨ head.2 < head.1
      · have hd : decide (head.1 < len ∧ head.2 < len ∧ head.1 ≤ head.2) = false := by
          simp only [decide_eq_false_iff_not]
          omega
        simp only [satisfiableRanges, List.filterMap_cons, if_pos h, List.filter_cons, hd,
          Bool.false_eq_true, if_false]
        exact ih
      · have hd : decide (head.1 < len ∧ head.2 < len ∧ head.1 ≤ head.2) = true := by
          simp only [decide_eq_true_eq]
          omega
        simp only [satisfiableRanges, List.filterMap_cons, if_neg h, List.filter_cons, hd,
          if_true, List.map_cons, List.cons.injEq, true_and]
        exact ih

/-- C2 witness: the normalization formula at the spec's reference resource
length, and a concrete unsatisfiable single-range request answered `416`. -/
theorem range_normalization_witness :
    adjust_end 0 100 475918 = 0 + min (100 - 0) (min (475918 - 0 - 1) (MAX_LEN - 1)) ∧
    handle lz4Model (fun _ => .ok ⟨⟨.v1, 0⟩, [("/a.txt", ⟨0, 0, "text/plain", 4, []⟩)]⟩)
        (fun _ => .error .ioError) (fun _ _ => some [(9, 3)]) ""
        ⟨.get, some "app", "/a.txt", some "bytes=9-3"⟩ =
      some (.ok ⟨416, [("content-range", "bytes */4")], []⟩) := by
  constructor
  · exact range_normalization.1 0 100 475918 (by decide) (by decide) (by decide)
  · exact range_normalization.2.1 lz4Model _ _ _ "" _ "app" _ ⟨0, 0, "text/plain", 4, []⟩
      "bytes=9-3" 9 3 rfl (Or.inl rfl) rfl rfl (by rfl) rfl (by decide)

/-- C4: a GET/HEAD request resolving to an existing bundle whose path has
no index entry gets a `404` response with empty body; a GET/HEAD request
whose bundle name has no current version in either the remote or the
builtin manifest makes the protocol surface the `BundleNotFound` error
rather than any response. -/
theorem protocol_not_found :
    (∀ (lz : Lz4) (lD : String → Except Error BundleDescriptor)
        (rF : String → Except Error Bytes) (pr : String → Nat → Option (List (Nat × Nat)))
        (bd : String) (req : Request) (name : String) (D : BundleDescriptor),
      req.host = some name →
      (req.method = .get ∨ req.method = .head) →
      lD name = .ok D →
      alookup D.index (resolve_path req.uriPath) = none →
      handle lz lD rF pr bd req = some (.ok ⟨404, [], []⟩)) ∧
    (∀ (lz : Lz4) (ic : IndexCodec) (st : SourceState)
        (pr : String → Nat → Option (List (Nat × Nat))) (bd : String)
        (req : Request) (name : String),
      req.host = some name →
      (req.method = .get ∨ req.method = .head) →
      manifestCurrentVersion st.remoteManifest name = none →
      manifestCurrentVersion st.builtinManifest name = none →
      handle lz (sourceLoadDescriptor ic st) (sourceReader st) pr bd req =
        some (.error .bundleNotFound)) := by
  constructor
  · intro lz lD rF pr bd req name D hhost hm hld hlook
    simp only [handle, hhost, hld, hlook, if_neg (not_not_intro hm), notFoundResp]
  · intro lz ic st pr bd req name hhost hm hrm hbm
    have hsl : sourceLoadDescriptor ic st name = .error .bundleNotFound := by
      simp [sourceLoadDescriptor, sourceReader, sourceFilepath, load_version, hrm, hbm]
    simp only [handle, hhost, hsl, if_neg (not_not_intro hm)]

/-- C4 witness: both branches at concrete inputs — a one-entry descriptor
misses `/nope`, and an empty two-tier source yields `BundleNotFound`. -/
theorem protocol_not_found_witness :
    handle lz4Model (fun _ => .ok ⟨⟨.v1, 0⟩, [("/index.html", ⟨0, 0, "text/html", 2, []⟩)]⟩)
        (fun _ => .error .ioError) (fun _ _ => none) ""
        ⟨.get, some "app", "/nope", none⟩ = some (.ok ⟨404, [], []⟩) ∧
    handle lz4Model (sourceLoadDescriptor bincodeModel ⟨"b", "r", ⟨[]⟩, ⟨[]⟩, []⟩)
        (sourceReader ⟨"b", "r", ⟨[]⟩, ⟨[]⟩, []⟩) (fun _ _ => none) ""
        ⟨.get, some "missing", "/", none⟩ = some (.error .bundleNotFound) :=
  ⟨protocol_not_found.1 lz4Model _ _ _ "" _ "app" _ rfl (Or.inl rfl) rfl (by rfl),
   protocol_not_found.2 lz4Model bincodeModel _ _ "" _ "missing" rfl (Or.inl rfl) rfl rfl⟩

/-- C7 counterexample: with a Strict policy AND a configured signature
verifier, a missing integrity header fails with `IntegrityVerifyFailed`
from the integrity step — not with `IntegrityRequired` as the claim states
for every configuration with a verifier. -/
theorem updater_gate_counterexample :
    download_update bincodeModel
        ⟨.strict, fun _ _ => .ok (), some (fun _ _ _ => .ok true)⟩
        ⟨"b", "r", ⟨[]⟩, ⟨[]⟩, []⟩
        ⟨"app", "1.0.0", none, none, none, none⟩ ⟨⟨⟨.v1, 0⟩, []⟩, []⟩ [] =
      (.error .integrityVerifyFailed, ⟨"b", "r", ⟨[]⟩, ⟨[]⟩, []⟩, false) ∧
    Error.integrityVerifyFailed ≠ Error.integrityRequired :=
  ⟨rfl, by decide⟩

/-- C7 amended: integrity and signature checks precede any write.  Under
Strict policy a missing integrity header fails with `IntegrityVerifyFailed`;
when a signature verifier is configured and the policy is not Strict, a
missing integrity header fails with `IntegrityRequired`; when a verifier is
configured, the integrity header is present and its check passes, a missing
signature header fails with `SignatureNotExists`.  In every such case
`write_remote_bundle` is never invoked and the source state (remote bundle
file and remote manifest) is unchanged. -/
theorem updater_gate (ic : IndexCodec) (cfg : UpdaterConfig) (st : SourceState)
    (info : RemoteBundleInfo) (bundle : Bundle) (data : Bytes) :
    (cfg.integrity_policy = .strict → info.integrity = none →
      download_update ic cfg st info bundle data = (.error .integrityVerifyFailed, st, false)) ∧
    (cfg.integrity_policy ≠ .strict → cfg.signature_verifier.isSome → info.integrity = none →
      download_update ic cfg st info bundle data = (.error .integrityRequired, st, false)) ∧
    (∀ i, cfg.signature_verifier.isSome → info.integrity = some i →
      cfg.integrity_checker i data = .ok () → info.signature = none →
      download_update ic cfg st info bundle data = (.error .signatureNotExists, st, false)) := by
  refine ⟨?_, ?_, ?_⟩
  · intro hpol hint
    simp [download_update, integrityGate, hpol, hint]
  · intro hpol hver hint
    match hv : cfg.signature_verifier with
    | none => rw [hv] at hver; cases hver
    | some verifier =>
      match hp : cfg.integrity_policy with
      | .strict => exact absurd hp hpol
      | .optional => simp [download_update, integrityGate, signatureGate, hp, hint, hv]
      | .disabled => simp [download_update, integrityGate, signatureGate, hp, hint, hv]
  · intro i hver hint hchk hsig
    match hv : cfg.signature_verifier with
    | none => rw [hv] at hver; cases hver
    | some verifier =>
      match hp : cfg.integrity_policy with
      | .strict => simp [download_update, integrityGate, signatureGate, hp, hint, hchk, hsig, hv]
      | .optional => simp [download_update, integrityGate, signatureGate, hp, hint, hchk, hsig, hv]
      | .disabled => simp [download_update, integrityGate, signatureGate, hp, hint, hchk, hsig, hv]

/-- C7 witness: the three failing gates at concrete configurations, each
leaving the concrete source state untouched with no write. -/
theorem updater_gate_witness :
    download_update bincodeModel ⟨.strict, fun _ _ => .ok (), none⟩
        ⟨"b", "r", ⟨[]⟩, ⟨[]⟩, []⟩ ⟨"app", "1.0.0", none, none, none, none⟩
        ⟨⟨⟨.v1, 0⟩, []⟩, []⟩ [] =
      (.error .integrityVerifyFailed, ⟨"b", "r", ⟨[]⟩, ⟨[]⟩, []⟩, false) ∧
    download_update bincodeModel ⟨.optional, fun _ _ => .ok (), some (fun _ _ _ => .ok true)⟩
        ⟨"b", "r", ⟨[]⟩, ⟨[]⟩, []⟩ ⟨"app", "1.0.0", none, none, none, none⟩
        ⟨⟨⟨.v1, 0⟩, []⟩, []⟩ [] =
      (.error .integrityRequired, ⟨"b", "r", ⟨[]⟩, ⟨[]⟩, []⟩, false) ∧
    download_update bincodeModel ⟨.optional, fun _ _ => .ok (), some (fun _ _ _ => .ok true)⟩
        ⟨"b", "r", ⟨[]⟩, ⟨[]⟩, []⟩ ⟨"app", "1.0.0", none, some "sha256-x", none, none⟩
        ⟨⟨⟨.v1, 0⟩, []⟩, []⟩ [] =
      (.error .signatureNotExists, ⟨"b", "r", ⟨[]⟩, ⟨[]⟩, []⟩, false) :=
  ⟨(updater_gate bincodeModel _ _ _ _ _).1 rfl rfl,
   (updater_gate bincodeModel _ _ _ _ _).2.1 (by decide) rfl rfl,
   (updater_gate bincodeModel _ _ _ _ _).2.2 "sha256-x" rfl rfl rfl rfl⟩

theorem alookup_filter_ne {α : Type} (hs : List (String × α)) (k key : String) :
    alookup (hs.filter (fun p => p.1 ≠ k)) key = if k = key then none else alookup hs key := by
  induction hs with
  | nil => by_cases h : k = key <;> simp [alookup, h]
  | cons head rest ih =>
    obtain ⟨q, w⟩ := head
    rw [List.filter_cons]
    by_cases hqk : q = k
    · subst hqk
      rw [if_neg (by simp), ih]
      by_cases hk : q = key
      · simp [hk]
      · simp [alookup, hk, Ne.symm hk]
    · rw [if_pos (by simp [hqk])]
      simp only [alookup]
      by_cases hq : q = key
      · subst hq
        have hk : k ≠ q := fun hc => hqk hc.symm
        simp [alookup, hk]
      · rw [if_neg hq, ih]
        by_cases hk : k = key <;> simp [alookup, hq, hk]

theorem alookup_hset (hs : List (String × String)) (k v key : String) :
    alookup (hset hs k v) key = if k = key then some v else alookup hs key := by
  rw [hset, alookup_append, alookup_filter_ne]
  by_cases h : k = key
  · simp [alookup, h]
  · simp [alookup, h]
    cases alookup hs key <;> simp

/-- C3: for a GET request whose Range header parses to exactly one
satisfiable range `(start, end)` against an entry of uncompressed length
`len`, the served end is the normalized
`end' = start + min(end-start, len-start-1, MAX-1)` (which equals `end`
whenever `end - start < MAX_LEN`); the response then has status `206`,
`content-range: bytes <start>-<end'>/<len>`, `content-length` overridden to
`end'-start+1`, and body equal to the slice `[start..=end']` of the
decompressed entry data; the same request with method HEAD yields the same
status and headers with an empty body. -/
theorem single_range_response (lz : Lz4) (lD : String → Except Error BundleDescriptor)
    (rF : String → Except Error Bytes) (pr : String → Nat → Option (List (Nat × Nat)))
    (bd : String) (host uriPath rh : String) (D : BundleDescriptor) (entry : IndexEntry)
    (file data : Bytes) (s e : Nat)
    (hld : lD host = .ok D)
    (hlook : alookup D.index (resolve_path uriPath) = some entry)
    (hpr : pr rh entry.content_length = some [(s, e)])
    (hs : s < entry.content_length) (he : e < entry.content_length) (hse : s ≤ e)
    (hrf : rF host = .ok file)
    (hread : readEntryData lz file D.header.index_end_offset entry = .ok data)
    (hlen : data.length = entry.content_length) :
    adjust_end s e entry.content_length =
      s + min (e - s) (min (entry.content_length - s - 1) (MAX_LEN - 1)) ∧
    handle lz lD rF pr bd ⟨.get, some host, uriPath, some rh⟩ =
      some (.ok ⟨206,
        singleRangeHeaders entry s (adjust_end s e entry.content_length) entry.content_length,
        (data.drop s).take (adjust_end s e entry.content_length + 1 - s)⟩) ∧
    handle lz lD rF pr bd ⟨.head, some host, uriPath, some rh⟩ =
      some (.ok ⟨206,
        singleRangeHeaders entry s (adjust_end s e entry.content_length) entry.content_length,
        []⟩) ∧
    alookup (singleRangeHeaders entry s (adjust_end s e entry.content_length)
        entry.content_length) "content-range" =
      some ("bytes " ++ toString s ++ "-" ++ toString (adjust_end s e entry.content_length)
        ++ "/" ++ toString entry.content_length) ∧
    alookup (singleRangeHeaders entry s (adjust_end s e entry.content_length)
        entry.content_length) "content-length" =
      some (toString (adjust_end s e entry.content_length + 1 - s)) := by
  have hunsat : ¬(s ≥ entry.content_length ∨ e ≥ entry.content_length ∨ e < s) := by omega
  have hadj_le : adjust_end s e entry.content_length ≤ e := by
    simp only [adjust_end]
    omega
  have hadj_ge : s ≤ adjust_end s e entry.content_length := by
    simp only [adjust_end]
    omega
  have hgd : descriptorGetData lz D file (resolve_path uriPath) = .ok (some data) := by
    simp [descriptorGetData, hlook, hread, Except.map]
  have hext : extract_buf data s (adjust_end s e entry.content_length) =
      some ((data.drop s).take (adjust_end s e entry.content_length + 1 - s)) :=
    extract_buf_in_bounds data s _ hadj_ge (by omega)
  refine ⟨by simp only [adjust_end, MAX_LEN]; omega, ?_, ?_, ?_, ?_⟩
  · simp only [handle, hld, hlook, hpr, if_neg (not_not_intro (Or.inl rfl)),
      List.length_cons, List.length_nil, if_pos rfl, List.head?_cons, if_neg hunsat,
      hrf, hgd, hext]
    simp
  · simp only [handle, hld, hlook, hpr, if_neg (not_not_intro (Or.inr rfl)),
      List.length_cons, List.length_nil, if_pos rfl, List.head?_cons, if_neg hunsat]
    simp
  · rw [singleRangeHeaders, alookup_hset, if_neg (by decide), alookup_hset, if_pos rfl]
  · rw [singleRangeHeaders, alookup_hset, if_pos rfl]

/-- C3 counterexample: for the satisfiable single range `(0, 1024000)`
against length `1024001` (a width of `1024001 > MAX_LEN` bytes), the
response's `content-range` is `bytes 0-1023999/1024001` and its
`content-length` is `1024000` — not `bytes 0-1024000/1024001` and `1024001`
as the claim, read for every satisfiable parsed range, requires. -/
theorem single_range_response_counterexample :
    handle lz4Model (fun _ => .ok ⟨⟨.v1, 0⟩, [("/big", ⟨0, 0, "video/mp4", 1024001, []⟩)]⟩)
        (fun _ => .error .ioError) (fun _ _ => some [(0, 1024000)]) ""
        ⟨.head, some "app", "/big", some "bytes=0-1024000"⟩ =
      some (.ok ⟨206,
        [("content-type", "video/mp4"), ("accept-ranges", "bytes"),
         ("access-control-expose-headers", "content-range"),
         ("content-range", "bytes 0-1023999/1024001"), ("content-length", "1024000")], []⟩) ∧
    alookup [("content-type", "video/mp4"), ("accept-ranges", "bytes"),
        ("access-control-expose-headers", "content-range"),
        ("content-range", "bytes 0-1023999/1024001"), ("content-length", "1024000")]
      "content-range" ≠ some "bytes 0-1024000/1024001" ∧
    alookup [("content-type", "video/mp4"), ("accept-ranges", "bytes"),
        ("access-control-expose-headers", "content-range"),
        ("content-range", "bytes 0-1023999/1024001"), ("content-length", "1024000")]
      "content-length" ≠ some "1024001" :=
  ⟨by rfl, by decide, by decide⟩

/-- C3 witness: the amended single-range theorem applied to a concrete
4-byte entry and the satisfiable range `(1, 2)`. -/
theorem single_range_response_witness :
    handle lz4Model (fun _ => .ok ⟨⟨.v1, 0⟩, [("/a", ⟨0, 8, "text/plain", 4, []⟩)]⟩)
        (fun _ => .ok (List.replicate 21 0 ++ [4, 0, 0, 0, 10, 20, 30, 40]))
        (fun _ _ => some [(1, 2)]) "" ⟨.get, some "app", "/a", some "bytes=1-2"⟩ =
      some (.ok ⟨206, singleRangeHeaders ⟨0, 8, "text/plain", 4, []⟩ 1 (adjust_end 1 2 4) 4,
        (([10, 20, 30, 40] : Bytes).drop 1).take (adjust_end 1 2 4 + 1 - 1)⟩) ∧
    handle lz4Model (fun _ => .ok ⟨⟨.v1, 0⟩, [("/a", ⟨0, 8, "text/plain", 4, []⟩)]⟩)
        (fun _ => .ok (List.replicate 21 0 ++ [4, 0, 0, 0, 10, 20, 30, 40]))
        (fun _ _ => some [(1, 2)]) "" ⟨.head, some "app", "/a", some "bytes=1-2"⟩ =
      some (.ok ⟨206, singleRangeHeaders ⟨0, 8, "text/plain", 4, []⟩ 1 (adjust_end 1 2 4) 4,
        []⟩) :=
  ⟨(single_range_response lz4Model _ _ _ "" "app" "/a" "bytes=1-2"
      ⟨⟨.v1, 0⟩, [("/a", ⟨0, 8, "text/plain", 4, []⟩)]⟩ ⟨0, 8, "text/plain", 4, []⟩
      (List.replicate 21 0 ++ [4, 0, 0, 0, 10, 20, 30, 40]) [10, 20, 30, 40] 1 2
      rfl (by rfl) rfl (by decide) (by decide) (by decide) rfl (by rfl) rfl).2.1,
   (single_range_response lz4Model _ _ _ "" "app" "/a" "bytes=1-2"
      ⟨⟨.v1, 0⟩, [("/a", ⟨0, 8, "text/plain", 4, []⟩)]⟩ ⟨0, 8, "text/plain", 4, []⟩
      (List.replicate 21 0 ++ [4, 0, 0, 0, 10, 20, 30, 40]) [10, 20, 30, 40] 1 2
      rfl (by rfl) rfl (by decide) (by decide) (by decide) rfl (by rfl) rfl).2.2.1⟩

end WvbSpec
